import Mathlib

/-!
Shallow embedding of `src/extract_tdee.py` (the `extract` function and its
helper `safe_float`), together with theorems settling the frozen claims.

Modelling conventions:
* A spreadsheet cell value is `CellVal`: an empty cell (`openpyxl` returns
  `None`), a `datetime` cell (modelled by its proleptic day ordinal, an
  integer; the time-of-day part is irrelevant because the code immediately
  calls `.date()`), a numeric cell (modelled by a rational), or a string cell.
* A sheet is a total function `row → column → CellVal`, mirroring
  `sheet.cell(row=r, column=c).value`.
* Python's `dict` is an association list with insertion-order semantics:
  overwriting an existing key keeps its position, a new key is appended.
* Python exceptions are the `Except` monad; `py_float` models `float(val)`
  raising `TypeError` / `ValueError`, and `safe_float_exc` models the
  `try/except` body of `safe_float` literally.  `safe_float` is the resulting
  total function used by the pipeline.
* `datetime.datetime.now(...)` is threaded as an explicit parameter `now`.
* File-system probing (`os.path.exists`) is a boolean oracle on paths, and
  the `print` diagnostics are structured `OutLine` values (the f-string
  formatting itself is mechanical I/O glue).
-/

namespace Tdee

/-- A raw spreadsheet cell value as returned by `openpyxl`. -/
inductive CellVal where
  | empty : CellVal
  | date : ℤ → CellVal
  | num : ℚ → CellVal
  | str : String → CellVal
deriving DecidableEq

/-- The Python exceptions relevant to `float(val)`. -/
inductive PyErr where
  | valueError : PyErr
  | typeError : PyErr
deriving DecidableEq

/-- Is `c` an ASCII decimal digit? -/
def isAsciiDigit (c : Char) : Bool := '0' ≤ c && c ≤ '9'

/-- Numeric value of a digit character. -/
def digVal (c : Char) : ℕ := c.toNat - '0'.toNat

/-- The natural number denoted by a list of digit characters. -/
def natOfDigits (l : List Char) : ℕ := l.foldl (fun n c => 10 * n + digVal c) 0

/-- Strip leading and trailing whitespace from a character list. -/
def stripChars (l : List Char) : List Char :=
  ((l.dropWhile Char.isWhitespace).reverse.dropWhile Char.isWhitespace).reverse

/-- Models Python `float()` applied to a string: leading/trailing whitespace
is stripped, then an optional sign followed by a plain decimal literal
(`123`, `123.`, `.5`, `12.75`) is accepted; anything else (in particular the
empty/blank string) fails.  Scientific notation and the `inf`/`nan` forms are
outside the model. -/
def py_float_str (s : String) : Option ℚ :=
  let cs := stripChars s.toList
  let signed : ℚ × List Char :=
    match cs with
    | '-' :: rest => (-1, rest)
    | '+' :: rest => (1, rest)
    | _ => (1, cs)
  let sign := signed.1
  let body := signed.2
  let intPart := body.takeWhile isAsciiDigit
  let rest := body.dropWhile isAsciiDigit
  match rest with
  | [] => if intPart.isEmpty then none else some (sign * natOfDigits intPart)
  | '.' :: frac =>
    if frac.all isAsciiDigit && (!intPart.isEmpty || !frac.isEmpty) then
      some (sign * ((natOfDigits intPart : ℚ) +
        (natOfDigits frac : ℚ) / (10 ^ frac.length)))
    else none
  | _ => none

/-- Models the bare Python call `float(val)` on a cell value: numbers convert
to themselves, strings go through the string grammar (`ValueError` on
failure), and `None` / `datetime` values raise `TypeError`. -/
def py_float : CellVal → Except PyErr ℚ
  | CellVal.empty => Except.error PyErr.typeError
  | CellVal.date _ => Except.error PyErr.typeError
  | CellVal.num q => Except.ok q
  | CellVal.str s =>
    match py_float_str s with
    | some q => Except.ok q
    | none => Except.error PyErr.valueError

/-- Literal rendering of `safe_float` (src lines 75-81) in the exception
monad: `if val is None: return None`, then `try: return float(val)` with
`except (ValueError, TypeError): return None`.  Any exception other than the
two caught ones would propagate (no such exception exists in the model). -/
def safe_float_exc (v : CellVal) : Except PyErr (Option ℚ) :=
  match v with
  | CellVal.empty => Except.ok none
  | v =>
    match py_float v with
    | Except.ok q => Except.ok (some q)
    | Except.error PyErr.valueError => Except.ok none
    | Except.error PyErr.typeError => Except.ok none

/-- The total value-normalizer actually used by the pipeline: the result of
`safe_float` when it returns normally. -/
def safe_float (v : CellVal) : Option ℚ :=
  match safe_float_exc v with
  | Except.ok o => o
  | Except.error _ => none

/-- One entry of `import_entries` (src lines 88-93). -/
structure Entry where
  weight : Option ℚ
  calories : Option ℚ
  notes : String
  updatedAt : String
deriving DecidableEq

/-- `import_entries`: a Python dict from date (day ordinal) to `Entry`. -/
abbrev Dict := List (ℤ × Entry)

/-- Python dict assignment `m[k] = v`: overwrite in place if the key exists,
otherwise append at the end. -/
def dictInsert (k : ℤ) (v : Entry) : Dict → Dict
  | [] => [(k, v)]
  | (k', v') :: rest =>
    if k' = k then (k, v) :: rest else (k', v') :: dictInsert k v rest

/-- Python dict lookup `m[k]` (as an `Option`). -/
def dictFind (k : ℤ) : Dict → Option Entry
  | [] => none
  | (k', v) :: rest => if k' = k then some v else dictFind k rest

/-- Date expansion (src lines 68-69): slot `i` of the week anchored at
`saturday_date` is `saturday_date - timedelta(days=6 - i)`. -/
def expandDate (anchor : ℤ) (i : ℕ) : ℤ := anchor - (6 - (i : ℤ))

/-- Body of the slot loop (src lines 72-93): normalize the weight cell and
the calorie cell for one calendar date and, only if at least one is non-null,
assign a fresh entry for that date into the dict. -/
def mergeSlot (now : String) (d : ℤ) (wv cv : CellVal) (m : Dict) : Dict :=
  let w_float := safe_float wv
  let c_float := safe_float cv
  if w_float.isSome || c_float.isSome then
    dictInsert d ⟨w_float, c_float, "Imported from Excel", now⟩ m
  else m

/-- One iteration of the `for i in range(7)` loop (src lines 66-93). -/
def slotStep (now : String) (anchor : ℤ) (wv cv : ℕ → CellVal) (acc : Dict) (i : ℕ) : Dict :=
  mergeSlot now (expandDate anchor i) (wv i) (cv i) acc

/-- The guard of the assignment at src line 87 for slot `i`:
`w_float is not None or c_float is not None`. -/
def slotCond (wv cv : ℕ → CellVal) (i : ℕ) : Bool :=
  (safe_float (wv i)).isSome || (safe_float (cv i)).isSome

/-- The entry assigned at src lines 88-93 for slot `i`. -/
def slotEntry (now : String) (wv cv : ℕ → CellVal) (i : ℕ) : Entry :=
  ⟨safe_float (wv i), safe_float (cv i), "Imported from Excel", now⟩

/-- The `for i in range(7)` loop (src lines 66-93) for one anchor week:
`wv i` / `cv i` are the raw weight / calorie cells at slot `i`. -/
def processWeek (now : String) (anchor : ℤ) (wv cv : ℕ → CellVal) (m : Dict) : Dict :=
  (List.range 7).foldl (slotStep now anchor wv cv) m

/-- Processing of one scanned row (src lines 50-93): the row contributes only
when its column-2 cell is a `datetime` and its column-3 cell equals the
string `'Weight'`; then its own columns 4-10 are the weight cells and the
PREVIOUS row's columns 4-10 are the calorie cells. -/
def processRow (sheet : ℕ → ℕ → CellVal) (now : String) (m : Dict) (row : ℕ) : Dict :=
  match sheet row 2 with
  | CellVal.date d =>
    if sheet row 3 = CellVal.str "Weight" then
      processWeek now d (fun i => sheet row (4 + i)) (fun i => sheet (row - 1) (4 + i)) m
    else m
  | _ => m

/-- The scan `for row in range(12, 100)` (src line 49) over an empty dict. -/
def scanRows (sheet : ℕ → ℕ → CellVal) (now : String) : Dict :=
  (List.range' 12 88).foldl (processRow sheet now) []

/-- `RowTouch sheet k row` says that scanned row `row` writes to calendar
date `k`: the row carries a `datetime` anchor `d` and the `'Weight'` tag, and
some slot `i` of its week expands to `k` with a non-null normalized weight or
calorie value. -/
def RowTouch (sheet : ℕ → ℕ → CellVal) (k : ℤ) (row : ℕ) : Prop :=
  ∃ d, sheet row 2 = CellVal.date d ∧ sheet row 3 = CellVal.str "Weight" ∧
    ∃ i, i < 7 ∧ k = expandDate d i ∧
      ((safe_float (sheet row (4 + i))).isSome ||
        (safe_float (sheet (row - 1) (4 + i))).isSome) = true

/-- Key order on dict items, used to model `sorted(import_entries.items())`
(ISO date strings of distinct dates compare exactly like the dates). -/
def keyLe (a b : ℤ × Entry) : Prop := a.1 ≤ b.1

instance : DecidableRel keyLe := fun a b => inferInstanceAs (Decidable (a.1 ≤ b.1))

instance : IsTotal (ℤ × Entry) keyLe := ⟨fun a b => Int.le_total a.1 b.1⟩

instance : IsTrans (ℤ × Entry) keyLe := ⟨fun _ _ _ h1 h2 => le_trans h1 h2⟩

/-- The fixed `settings` object of the export (src lines 102-105). -/
structure Settings where
  weightUnit : String
  calorieUnit : String
deriving DecidableEq

/-- `data_to_export` (src lines 99-107). -/
structure Snapshot where
  version : ℕ
  exportedAt : String
  settings : Settings
  entries : List (ℤ × Entry)
deriving DecidableEq

/-- One diagnostic line printed by `extract` (formatting abstracted). -/
inductive OutLine where
  | errNotFound : OutLine
  | tried : List String → OutLine
  | readingFrom : String → OutLine
  | success : ℕ → String → OutLine
  | dateRange : ℤ → ℤ → OutLine
  | noEntries : OutLine
deriving DecidableEq

/-- Observable outcome of one run: the written output file (if any) and the
printed diagnostics. -/
structure RunResult where
  output : Option Snapshot
  printed : List OutLine
deriving DecidableEq

/-- The candidate input locations (src lines 18-22). -/
def possible_paths : List String :=
  ["Improved_TDEE_Tracker.xlsx",
   "/home/bkutasi/Downloads/Improved_TDEE_Tracker.xlsx",
   "../Improved_TDEE_Tracker.xlsx"]

/-- The fixed output path (src line 35). -/
def output_file : String := "import_data.json"

/-- The whole `extract` routine: probe the candidate paths in order
(src lines 24-33: error out, naming the attempted paths, when none exists);
otherwise scan the sheet, sort the entries by date, build the snapshot,
write it, and print the summary (src lines 35-118). -/
def extract_run (fs : String → Bool) (sheet : ℕ → ℕ → CellVal) (now : String) : RunResult :=
  match possible_paths.find? fs with
  | none => ⟨none, [OutLine.errNotFound, OutLine.tried possible_paths]⟩
  | some p =>
    let import_entries := scanRows sheet now
    let sorted_entries := List.insertionSort keyLe import_entries
    let snap : Snapshot := ⟨1, now, ⟨"kg", "cal"⟩, sorted_entries⟩
    let dates := List.insertionSort (fun a b : ℤ => a ≤ b) (import_entries.map Prod.fst)
    ⟨some snap,
      OutLine.readingFrom p ::
        match dates with
        | [] => [OutLine.noEntries]
        | d0 :: rest =>
          [OutLine.success import_entries.length output_file,
           OutLine.dateRange d0 (rest.getLastD d0)]⟩

/-- Point update of one sheet cell (used to state that a computation does not
depend on that cell). -/
def updateCell (sheet : ℕ → ℕ → CellVal) (r c : ℕ) (v : CellVal) : ℕ → ℕ → CellVal :=
  fun r' c' => if r' = r ∧ c' = c then v else sheet r' c'

/-- The all-empty sheet. -/
def emptySheet : ℕ → ℕ → CellVal := fun _ _ => CellVal.empty

/-- Example sheet from the spec's end-to-end example: one calorie row
(row 11) followed by its anchor/weight row (row 12, anchor ordinal 1000). -/
def exSheet : ℕ → ℕ → CellVal := fun r c =>
  if r = 11 ∧ c = 4 then CellVal.num 2200
  else if r = 11 ∧ c = 5 then CellVal.num 2150
  else if r = 11 ∧ c = 10 then CellVal.num 2300
  else if r = 12 ∧ c = 2 then CellVal.date 1000
  else if r = 12 ∧ c = 3 then CellVal.str "Weight"
  else if r = 12 ∧ c = 4 then CellVal.num 70
  else if r = 12 ∧ c = 5 then CellVal.num 68
  else if r = 12 ∧ c = 10 then CellVal.num 71
  else CellVal.empty

/-- The snapshot that `extract_run` produces from `exSheet` (a concrete
instance used to exercise the snapshot-shape theorem). -/
def exSnap : Snapshot :=
  ⟨1, "t", ⟨"kg", "cal"⟩,
    [(994, ⟨some 70, some 2200, "Imported from Excel", "t"⟩),
     (995, ⟨some 68, some 2150, "Imported from Excel", "t"⟩),
     (1000, ⟨some 71, some 2300, "Imported from Excel", "t"⟩)]⟩

/-- Sheet refuting C1: two `Weight` rows with the SAME anchor (ordinal 106).
Row 12 gives date 100 a weight (70).  Row 13 has no value cells of its own,
but its calorie source is row 12, whose column 4 holds 70; so row 13 writes
date 100 again with a null weight and calories 70. -/
def c1Sheet : ℕ → ℕ → CellVal := fun r c =>
  if r = 12 ∧ c = 2 then CellVal.date 106
  else if r = 12 ∧ c = 3 then CellVal.str "Weight"
  else if r = 12 ∧ c = 4 then CellVal.num 70
  else if r = 13 ∧ c = 2 then CellVal.date 106
  else if r = 13 ∧ c = 3 then CellVal.str "Weight"
  else CellVal.empty

/-- Sheet refuting C4: row 11 carries an unrecognized tag `"Banana"` yet its
column-4 value 2000 is consumed as the calorie source of the weight row 12. -/
def c4Sheet : ℕ → ℕ → CellVal := fun r c =>
  if r = 11 ∧ c = 3 then CellVal.str "Banana"
  else if r = 11 ∧ c = 4 then CellVal.num 2000
  else if r = 12 ∧ c = 2 then CellVal.date 300
  else if r = 12 ∧ c = 3 then CellVal.str "Weight"
  else CellVal.empty

/-- Sheet refuting C5: row 12 establishes anchor 200 and writes weight 70 at
date 194; row 13 has a `Weight` tag and a weight value 80 but NO date cell,
so the scan skips it entirely — no carry-forward of the anchor. -/
def c5Sheet : ℕ → ℕ → CellVal := fun r c =>
  if r = 12 ∧ c = 2 then CellVal.date 200
  else if r = 12 ∧ c = 3 then CellVal.str "Weight"
  else if r = 12 ∧ c = 4 then CellVal.num 70
  else if r = 13 ∧ c = 3 then CellVal.str "Weight"
  else if r = 13 ∧ c = 4 then CellVal.num 80
  else CellVal.empty

/-! ### Helper lemmas about the dict operations -/

theorem dictFind_dictInsert (k k' : ℤ) (v : Entry) (m : Dict) :
    dictFind k (dictInsert k' v m) = if k = k' then some v else dictFind k m := by
  induction m with
  | nil =>
    show (if k' = k then some v else none) = if k = k' then some v else none
    by_cases h : k = k'
    · rw [if_pos h.symm, if_pos h]
    · rw [if_neg (fun hh => h hh.symm), if_neg h]
  | cons p rest ih =>
    obtain ⟨k'', w⟩ := p
    by_cases h1 : k'' = k'
    · have e1 : dictInsert k' v ((k'', w) :: rest) = (k', v) :: rest := by
        simp [dictInsert, h1]
      rw [e1]
      show (if k' = k then some v else dictFind k rest) =
        if k = k' then some v else dictFind k ((k'', w) :: rest)
      by_cases h2 : k = k'
      · rw [if_pos h2.symm, if_pos h2]
      · rw [if_neg (fun hh => h2 hh.symm), if_neg h2]
        show dictFind k rest = if k'' = k then some w else dictFind k rest
        rw [if_neg (fun hh => h2 ((h1 ▸ hh : k' = k)).symm)]
    · have e1 : dictInsert k' v ((k'', w) :: rest) = (k'', w) :: dictInsert k' v rest := by
        simp [dictInsert, h1]
      rw [e1]
      show (if k'' = k then some w else dictFind k (dictInsert k' v rest)) =
        if k = k' then some v else dictFind k ((k'', w) :: rest)
      by_cases h2 : k'' = k
      · rw [if_pos h2, if_neg (fun hh => h1 (h2.trans hh))]
        show some w = if k'' = k then some w else dictFind k rest
        rw [if_pos h2]
      · rw [if_neg h2, ih]
        by_cases h3 : k = k'
        · rw [if_pos h3, if_pos h3]
        · rw [if_neg h3, if_neg h3]
          show dictFind k rest = if k'' = k then some w else dictFind k rest
          rw [if_neg h2]

theorem dictInsert_self (k : ℤ) (v : Entry) :
    ∀ m : Dict, dictFind k m = some v → dictInsert k v m = m := by
  intro m
  induction m with
  | nil => intro h; simp [dictFind] at h
  | cons p rest ih =>
    obtain ⟨k', w⟩ := p
    intro h
    by_cases hk : k' = k
    · subst hk
      simp [dictFind] at h
      simp [dictInsert, h]
    · simp [dictFind, hk] at h
      simp [dictInsert, hk, ih h]

theorem dictFind_mem {k : ℤ} {e : Entry} :
    ∀ {m : Dict}, dictFind k m = some e → (k, e) ∈ m := by
  intro m
  induction m with
  | nil => intro h; simp [dictFind] at h
  | cons p rest ih =>
    obtain ⟨k', w⟩ := p
    intro h
    by_cases hk : k' = k
    · subst hk
      simp [dictFind] at h
      simp [h]
    · simp [dictFind, hk] at h
      exact List.mem_cons_of_mem _ (ih h)

theorem mem_dictInsert {p : ℤ × Entry} {k : ℤ} {v : Entry} :
    ∀ {m : Dict}, p ∈ dictInsert k v m → p = (k, v) ∨ p ∈ m := by
  intro m
  induction m with
  | nil => intro h; simp [dictInsert] at h; exact Or.inl h
  | cons q rest ih =>
    obtain ⟨k', w⟩ := q
    intro h
    by_cases hk : k' = k
    · simp [dictInsert, hk] at h
      rcases h with h | h
      · exact Or.inl h
      · exact Or.inr (List.mem_cons_of_mem _ h)
    · simp only [dictInsert, if_neg hk, List.mem_cons] at h
      rcases h with h | h
      · exact Or.inr (h ▸ List.mem_cons_self (k', w) rest)
      · rcases ih h with h' | h'
        · exact Or.inl h'
        · exact Or.inr (List.mem_cons_of_mem _ h')

theorem keys_dictInsert {a k : ℤ} {v : Entry} {m : Dict}
    (h : a ∈ (dictInsert k v m).map Prod.fst) : a = k ∨ a ∈ m.map Prod.fst := by
  rcases List.mem_map.mp h with ⟨p, hp, rfl⟩
  rcases mem_dictInsert hp with h' | h'
  · exact Or.inl (by rw [h'])
  · exact Or.inr (List.mem_map_of_mem _ h')

theorem nodup_dictInsert (k : ℤ) (v : Entry) :
    ∀ {m : Dict}, (m.map Prod.fst).Nodup → ((dictInsert k v m).map Prod.fst).Nodup := by
  intro m
  induction m with
  | nil => intro _; simp [dictInsert]
  | cons p rest ih =>
    obtain ⟨k', w⟩ := p
    intro h
    simp only [List.map_cons, List.nodup_cons] at h
    by_cases hk : k' = k
    · have e1 : dictInsert k v ((k', w) :: rest) = (k, v) :: rest := by
        simp [dictInsert, hk]
      rw [e1, List.map_cons, List.nodup_cons]
      exact ⟨hk ▸ h.1, h.2⟩
    · have e1 : dictInsert k v ((k', w) :: rest) = (k', w) :: dictInsert k v rest := by
        simp [dictInsert, hk]
      rw [e1, List.map_cons, List.nodup_cons]
      refine ⟨fun hmem => ?_, ih h.2⟩
      rcases keys_dictInsert hmem with h' | h'
      · exact hk h'
      · exact h.1 h'

/-! ### Generic fold lemmas -/

theorem foldl_inv {α β : Type} {f : β → α → β} {Q : β → Prop}
    (h : ∀ b a, Q b → Q (f b a)) :
    ∀ (L : List α) (b : β), Q b → Q (L.foldl f b) := by
  intro L
  induction L with
  | nil => intro b hb; exact hb
  | cons a L ih => intro b hb; exact ih (f b a) (h b a hb)

theorem foldl_prov {α β : Type} {f : β → α → β} {Q : β → Prop} {R : α → Prop}
    (h : ∀ b a, Q (f b a) → Q b ∨ R a) :
    ∀ (L : List α) (b : β), Q (L.foldl f b) → Q b ∨ ∃ a ∈ L, R a := by
  intro L
  induction L with
  | nil => intro b hb; exact Or.inl hb
  | cons a L ih =>
    intro b hb
    rcases ih (f b a) hb with h' | ⟨a', ha', hR⟩
    · rcases h b a h' with h'' | hR
      · exact Or.inl h''
      · exact Or.inr ⟨a, List.mem_cons_self _ _, hR⟩
    · exact Or.inr ⟨a', List.mem_cons_of_mem _ ha', hR⟩

/-! ### Lemmas about one slot and one week -/

theorem slotStep_eq (now : String) (anchor : ℤ) (wv cv : ℕ → CellVal) (m : Dict) (i : ℕ) :
    slotStep now anchor wv cv m i =
      if slotCond wv cv i then dictInsert (expandDate anchor i) (slotEntry now wv cv i) m
      else m := rfl

theorem find_slotStep_ne {k : ℤ} {anchor : ℤ} {i : ℕ} (h : k ≠ expandDate anchor i)
    (now : String) (wv cv : ℕ → CellVal) (m : Dict) :
    dictFind k (slotStep now anchor wv cv m i) = dictFind k m := by
  rw [slotStep_eq]
  split
  · rw [dictFind_dictInsert, if_neg h]
  · rfl

theorem find_slotStep_self (now : String) (anchor : ℤ) (wv cv : ℕ → CellVal)
    (m : Dict) (i : ℕ) :
    dictFind (expandDate anchor i) (slotStep now anchor wv cv m i) =
      if slotCond wv cv i then some (slotEntry now wv cv i)
      else dictFind (expandDate anchor i) m := by
  rw [slotStep_eq]
  split
  · rw [dictFind_dictInsert, if_pos rfl]
  · rfl

theorem expandDate_inj {a : ℤ} {i j : ℕ} (h : expandDate a i = expandDate a j) : i = j := by
  simp only [expandDate] at h
  omega

theorem find_foldSlots_of_forall_ne (now : String) (anchor : ℤ) (wv cv : ℕ → CellVal) :
    ∀ (L : List ℕ) (m : Dict) (k : ℤ), (∀ i ∈ L, k ≠ expandDate anchor i) →
      dictFind k (L.foldl (slotStep now anchor wv cv) m) = dictFind k m := by
  intro L
  induction L with
  | nil => intro m k _; rfl
  | cons j L ih =>
    intro m k h
    show dictFind k (L.foldl (slotStep now anchor wv cv) (slotStep now anchor wv cv m j)) = _
    rw [ih _ k (fun i hi => h i (List.mem_cons_of_mem _ hi)),
      find_slotStep_ne (h j (List.mem_cons_self _ _))]

theorem find_foldSlots_mem (now : String) (anchor : ℤ) (wv cv : ℕ → CellVal) :
    ∀ (L : List ℕ), L.Pairwise (· ≠ ·) → ∀ (m : Dict) (i : ℕ), i ∈ L →
      dictFind (expandDate anchor i) (L.foldl (slotStep now anchor wv cv) m) =
        if slotCond wv cv i then some (slotEntry now wv cv i)
        else dictFind (expandDate anchor i) m := by
  intro L
  induction L with
  | nil => intro _ m i hi; exact absurd hi (List.not_mem_nil i)
  | cons j L ih =>
    intro hL m i hi
    rw [List.pairwise_cons] at hL
    rcases List.mem_cons.mp hi with rfl | hi'
    · show dictFind (expandDate anchor i)
        (L.foldl (slotStep now anchor wv cv) (slotStep now anchor wv cv m i)) = _
      rw [find_foldSlots_of_forall_ne now anchor wv cv L _ _
          (fun l hl heq => hL.1 l hl (expandDate_inj heq)),
        find_slotStep_self]
    · show dictFind (expandDate anchor i)
        (L.foldl (slotStep now anchor wv cv) (slotStep now anchor wv cv m j)) = _
      rw [ih hL.2 _ i hi']
      have hne : expandDate anchor i ≠ expandDate anchor j :=
        fun heq => hL.1 i hi' (expandDate_inj heq).symm
      rw [find_slotStep_ne hne]

theorem range7_pairwise_ne : (List.range 7).Pairwise (· ≠ ·) :=
  (List.pairwise_lt_range 7).imp Nat.ne_of_lt

theorem find_processWeek (now : String) (anchor : ℤ) (wv cv : ℕ → CellVal)
    (m : Dict) {i : ℕ} (hi : i < 7) :
    dictFind (expandDate anchor i) (processWeek now anchor wv cv m) =
      if slotCond wv cv i then some (slotEntry now wv cv i)
      else dictFind (expandDate anchor i) m :=
  find_foldSlots_mem now anchor wv cv (List.range 7) range7_pairwise_ne m i
    (List.mem_range.mpr hi)

theorem foldSlots_id (now : String) (anchor : ℤ) (wv cv : ℕ → CellVal) :
    ∀ (L : List ℕ) (m : Dict),
      (∀ i ∈ L, slotCond wv cv i = true →
        dictFind (expandDate anchor i) m = some (slotEntry now wv cv i)) →
      L.foldl (slotStep now anchor wv cv) m = m := by
  intro L
  induction L with
  | nil => intro m _; rfl
  | cons j L ih =>
    intro m h
    have hstep : slotStep now anchor wv cv m j = m := by
      rw [slotStep_eq]
      split
      · next hc => exact dictInsert_self _ _ m (h j (List.mem_cons_self _ _) hc)
      · rfl
    show L.foldl (slotStep now anchor wv cv) (slotStep now anchor wv cv m j) = m
    rw [hstep]
    exact ih m (fun i hi hc => h i (List.mem_cons_of_mem _ hi) hc)

/-! ### Provenance: where the keys of the final mapping come from -/

theorem find_foldSlots_isSome (now : String) (anchor : ℤ) (wv cv : ℕ → CellVal)
    (L : List ℕ) (m : Dict) (k : ℤ)
    (h : (dictFind k (L.foldl (slotStep now anchor wv cv) m)).isSome = true) :
    (dictFind k m).isSome = true ∨
      ∃ i ∈ L, k = expandDate anchor i ∧ slotCond wv cv i = true := by
  refine foldl_prov (Q := fun m => (dictFind k m).isSome = true)
    (R := fun i => k = expandDate anchor i ∧ slotCond wv cv i = true) ?_ L m h
  intro b i hb
  rw [slotStep_eq] at hb
  by_cases hc : slotCond wv cv i = true
  · rw [if_pos hc, dictFind_dictInsert] at hb
    by_cases hk : k = expandDate anchor i
    · exact Or.inr ⟨hk, hc⟩
    · rw [if_neg hk] at hb
      exact Or.inl hb
  · rw [if_neg hc] at hb
    exact Or.inl hb

theorem find_processRow_isSome (sheet : ℕ → ℕ → CellVal) (now : String)
    (m : Dict) (row : ℕ) (k : ℤ)
    (h : (dictFind k (processRow sheet now m row)).isSome = true) :
    (dictFind k m).isSome = true ∨ RowTouch sheet k row := by
  unfold processRow at h
  split at h
  case _ d hd =>
    split at h
    case isTrue ht =>
      rcases find_foldSlots_isSome now d _ _ (List.range 7) m k h with h' | ⟨i, hi, hk, hc⟩
      · exact Or.inl h'
      · exact Or.inr ⟨d, hd, ht, i, List.mem_range.mp hi, hk, hc⟩
    case isFalse ht => exact Or.inl h
  case _ => exact Or.inl h

theorem find_scanRows_isSome (sheet : ℕ → ℕ → CellVal) (now : String) (k : ℤ)
    (h : (dictFind k (scanRows sheet now)).isSome = true) :
    ∃ row, 12 ≤ row ∧ row < 100 ∧ RowTouch sheet k row := by
  rcases foldl_prov (Q := fun m => (dictFind k m).isSome = true)
      (R := RowTouch sheet k)
      (fun b row hb => find_processRow_isSome sheet now b row k hb)
      (List.range' 12 88) [] h with h' | ⟨row, hrow, hT⟩
  · simp [dictFind] at h'
  · rcases List.mem_range'_1.mp hrow with ⟨h1, h2⟩
    exact ⟨row, h1, h2, hT⟩

/-! ### Invariants of the final mapping: non-null entries, unique keys -/

theorem processRow_preserves (sheet : ℕ → ℕ → CellVal) (now : String)
    {Q : Dict → Prop}
    (hins : ∀ m d e, Q m → (e.weight.isSome || e.calories.isSome) = true →
      Q (dictInsert d e m)) :
    ∀ m row, Q m → Q (processRow sheet now m row) := by
  intro m row hQ
  unfold processRow
  split
  case _ d hd =>
    split
    case isTrue ht =>
      refine foldl_inv ?_ (List.range 7) m hQ
      intro b i hb
      rw [slotStep_eq]
      by_cases hc : slotCond (fun j => sheet row (4 + j)) (fun j => sheet (row - 1) (4 + j)) i = true
      · rw [if_pos hc]
        exact hins b _ _ hb hc
      · rw [if_neg hc]
        exact hb
    case isFalse ht => exact hQ
  case _ => exact hQ

theorem scanRows_inv {Q : Dict → Prop} (sheet : ℕ → ℕ → CellVal) (now : String)
    (hnil : Q [])
    (hins : ∀ m d e, Q m → (e.weight.isSome || e.calories.isSome) = true →
      Q (dictInsert d e m)) :
    Q (scanRows sheet now) :=
  foldl_inv (fun b row hb => processRow_preserves sheet now hins b row hb)
    (List.range' 12 88) [] hnil

theorem scanRows_entry_nonnull (sheet : ℕ → ℕ → CellVal) (now : String)
    {k : ℤ} {e : Entry} (h : dictFind k (scanRows sheet now) = some e) :
    e.weight ≠ none ∨ e.calories ≠ none := by
  have hall : ∀ p ∈ scanRows sheet now,
      ((p : ℤ × Entry).2.weight.isSome || p.2.calories.isSome) = true := by
    refine scanRows_inv
      (Q := fun m => ∀ p ∈ m, ((p : ℤ × Entry).2.weight.isSome || p.2.calories.isSome) = true)
      sheet now ?_ ?_
    · intro p hp; exact absurd hp (List.not_mem_nil p)
    · intro m d e' hQ he' p hp
      rcases mem_dictInsert hp with rfl | hp'
      · exact he'
      · exact hQ p hp'
  have hke := hall (k, e) (dictFind_mem h)
  rcases Bool.or_eq_true_iff.mp hke with h' | h'
  · exact Or.inl (Option.isSome_iff_ne_none.mp h')
  · exact Or.inr (Option.isSome_iff_ne_none.mp h')

theorem scanRows_nodup_keys (sheet : ℕ → ℕ → CellVal) (now : String) :
    ((scanRows sheet now).map Prod.fst).Nodup :=
  scanRows_inv (Q := fun m => (m.map Prod.fst).Nodup) sheet now List.nodup_nil
    (fun _ d e hQ _ => nodup_dictInsert d e hQ)

/-! ### The claims -/

/-- C2: Date expansion: for every anchor date `A` and slot index `i ∈ [0,6]`,
the calendar date assigned to slot `i` equals `A - (6 - i)` days; in
particular slot 6 expands to `A` itself and slot 0 to `A - 6` days. -/
theorem C2_date_expansion (A : ℤ) (i : ℕ) (h : i ≤ 6) :
    expandDate A i = A - (6 - (i : ℤ)) ∧ expandDate A 6 = A ∧ expandDate A 0 = A - 6 := by
  refine ⟨rfl, ?_, ?_⟩ <;> simp [expandDate]

/-- Witness for C2 at `A = 5`, `i = 3`. -/
theorem C2_witness :
    expandDate 5 3 = 5 - (6 - (3 : ℤ)) ∧ expandDate 5 6 = 5 ∧ expandDate 5 0 = 5 - 6 :=
  C2_date_expansion 5 3 (by decide)

/-- C6: Value normalization: the normalizer returns null for an absent value
(`None` cell) and for a blank / non-convertible string, returns the
corresponding number for a convertible value, and never raises for any
input (`safe_float_exc`, the literal try/except rendering, always returns
normally with the value of `safe_float`). -/
theorem C6_value_normalization (v : CellVal) (s : String) (q : ℚ) (d : ℤ) :
    safe_float_exc v = Except.ok (safe_float v) ∧
    safe_float CellVal.empty = none ∧
    safe_float (CellVal.str "") = none ∧
    safe_float (CellVal.num q) = some q ∧
    safe_float (CellVal.str s) = py_float_str s ∧
    safe_float (CellVal.date d) = none := by
  refine ⟨?_, rfl, by decide, rfl, ?_, rfl⟩
  · cases v with
    | empty => rfl
    | date d' => rfl
    | num q' => rfl
    | str s' =>
      cases hp : py_float_str s' with
      | none => simp [safe_float, safe_float_exc, py_float, hp]
      | some q' => simp [safe_float, safe_float_exc, py_float, hp]
  · cases hp : py_float_str s with
    | none => simp [safe_float, safe_float_exc, py_float, hp]
    | some q' => simp [safe_float, safe_float_exc, py_float, hp]

/-- C7: Merge idempotence: processing the same anchor week's weight and
calorie slot data twice into the entry set yields exactly the same final
entry set as processing it once. -/
theorem C7_merge_idempotent (now : String) (anchor : ℤ) (wv cv : ℕ → CellVal) (m : Dict) :
    processWeek now anchor wv cv (processWeek now anchor wv cv m) =
      processWeek now anchor wv cv m := by
  show (List.range 7).foldl (slotStep now anchor wv cv) (processWeek now anchor wv cv m) =
    processWeek now anchor wv cv m
  refine foldSlots_id now anchor wv cv (List.range 7) _ ?_
  intro i hi hc
  rw [find_processWeek now anchor wv cv m (List.mem_range.mp hi), if_pos hc]

/-- C10: Implicit week-window invariant: every date key present in the final
entries mapping equals `anchor - (6 - i)` for the anchor date of some
processed weight row (a scanned row in `[12,100)` carrying a `datetime` and
the `'Weight'` tag) and some slot `i ∈ [0,6]`. -/
theorem C10_week_window (sheet : ℕ → ℕ → CellVal) (now : String) (k : ℤ) (e : Entry)
    (h : dictFind k (scanRows sheet now) = some e) :
    ∃ row d i, 12 ≤ row ∧ row < 100 ∧ sheet row 2 = CellVal.date d ∧
      sheet row 3 = CellVal.str "Weight" ∧ i ≤ 6 ∧ k = expandDate d i := by
  have hs : (dictFind k (scanRows sheet now)).isSome = true := by rw [h]; rfl
  rcases find_scanRows_isSome sheet now k hs with ⟨row, h1, h2, d, hd, ht, i, hi, hk, _⟩
  exact ⟨row, d, i, h1, h2, hd, ht, Nat.lt_succ_iff.mp hi, hk⟩

/-- Witness for C10: date 994 of the example sheet lies in the window of the
weight row anchored at ordinal 1000. -/
theorem C10_witness :
    ∃ row d i, 12 ≤ row ∧ row < 100 ∧ exSheet row 2 = CellVal.date d ∧
      exSheet row 3 = CellVal.str "Weight" ∧ i ≤ 6 ∧ (994 : ℤ) = expandDate d i :=
  C10_week_window exSheet "t" 994 ⟨some 70, some 2200, "Imported from Excel", "t"⟩
    (by decide)

/-- C3: Omission rule: every entry present in the final mapping has a
non-null weight or a non-null calories field, and a calendar date for which
every contributing week (every processed weight row whose window covers the
date) supplies null for both fields has no entry in the output at all. -/
theorem C3_omission (sheet : ℕ → ℕ → CellVal) (now : String) (k : ℤ) :
    (∀ e, dictFind k (scanRows sheet now) = some e →
      e.weight ≠ none ∨ e.calories ≠ none) ∧
    ((∀ row d, 12 ≤ row → row < 100 → sheet row 2 = CellVal.date d →
        sheet row 3 = CellVal.str "Weight" → ∀ i, i < 7 → k = expandDate d i →
        safe_float (sheet row (4 + i)) = none ∧
          safe_float (sheet (row - 1) (4 + i)) = none) →
      dictFind k (scanRows sheet now) = none) := by
  constructor
  · intro e he
    exact scanRows_entry_nonnull sheet now he
  · intro hall
    by_contra hne
    have hs : (dictFind k (scanRows sheet now)).isSome = true :=
      Option.ne_none_iff_isSome.mp hne
    rcases find_scanRows_isSome sheet now k hs with ⟨row, h1, h2, d, hd, ht, i, hi, hk, hc⟩
    rcases hall row d h1 h2 hd ht i hi hk with ⟨hw, hcc⟩
    rw [hw, hcc] at hc
    simp at hc

/-- Witness for C3: the stored entry for date 994 of the example sheet has a
non-null field, and the all-empty sheet produces no entry for date 0. -/
theorem C3_witness :
    ((⟨some 70, some 2200, "Imported from Excel", "t"⟩ : Entry).weight ≠ none ∨
      (⟨some 70, some 2200, "Imported from Excel", "t"⟩ : Entry).calories ≠ none) ∧
    dictFind 0 (scanRows emptySheet "t") = none :=
  ⟨(C3_omission exSheet "t" 994).1 ⟨some 70, some 2200, "Imported from Excel", "t"⟩
      (by decide),
   (C3_omission emptySheet "t" 0).2 (by
      intro row d _ _ hd
      exact absurd hd (by simp [emptySheet]))⟩

/-- C1 counterexample: the claim "a later record with null weight never
clears a stored non-null weight" is false.  On `c1Sheet`, after row 12 the
entry for date 100 holds weight 70; row 13 (same anchor) supplies a null
weight together with non-null calories (70, read from row 12's cells), and
the assignment overwrites the whole entry, clearing the weight to null —
which is also the final output of the full scan. -/
theorem C1_counterexample :
    dictFind 100 (processRow c1Sheet "t" [] 12) =
        some ⟨some 70, none, "Imported from Excel", "t"⟩ ∧
    dictFind 100 (processRow c1Sheet "t" (processRow c1Sheet "t" [] 12) 13) =
        some ⟨none, some 70, "Imported from Excel", "t"⟩ ∧
    scanRows c1Sheet "t" = [(100, ⟨none, some 70, "Imported from Excel", "t"⟩)] := by
  decide

/-- C1 (amended): processing a later record for the same date leaves the
stored entry untouched only when the record's weight AND calories are both
null (no assignment happens); when the incoming weight is null but the
incoming calories are not, the entry is overwritten wholesale, so the stored
weight is cleared to null. -/
theorem C1_amended (now : String) (d : ℤ) (wv cv : CellVal) (m : Dict) :
    (safe_float wv = none → safe_float cv = none → mergeSlot now d wv cv m = m) ∧
    (safe_float wv = none → safe_float cv ≠ none →
      dictFind d (mergeSlot now d wv cv m) =
        some ⟨none, safe_float cv, "Imported from Excel", now⟩) := by
  constructor
  · intro hw hc
    show (if (safe_float wv).isSome || (safe_float cv).isSome then
        dictInsert d ⟨safe_float wv, safe_float cv, "Imported from Excel", now⟩ m
      else m) = m
    rw [hw, hc]
    rfl
  · intro hw hc
    rcases hq : safe_float cv with _ | q
    · exact absurd hq hc
    · rw [show mergeSlot now d wv cv m =
          if (safe_float wv).isSome || (safe_float cv).isSome then
            dictInsert d ⟨safe_float wv, safe_float cv, "Imported from Excel", now⟩ m
          else m from rfl, hw, hq]
      show dictFind d (dictInsert d ⟨none, some q, "Imported from Excel", now⟩ m) = _
      rw [dictFind_dictInsert, if_pos rfl]

/-- Witness for C1 (amended): a record with null weight and null calories
changes nothing; one with null weight and calories 5 replaces the entry. -/
theorem C1_amended_witness :
    mergeSlot "t" 0 (CellVal.str "x") CellVal.empty [] = [] ∧
    dictFind 0 (mergeSlot "t" 0 (CellVal.str "x") (CellVal.num 5) []) =
      some ⟨none, some 5, "Imported from Excel", "t"⟩ :=
  ⟨(C1_amended "t" 0 (CellVal.str "x") CellVal.empty []).1 (by decide) (by decide),
   (C1_amended "t" 0 (CellVal.str "x") (CellVal.num 5) []).2 (by decide) (by decide)⟩

/-- C4 counterexample: the claim "a row whose tag is any value other than
the two recognized labels contributes no daily values" is false.  On
`c4Sheet`, row 11 is tagged `"Banana"` and holds the only 2000 in the sheet,
yet the final mapping contains calories 2000 for date 294: the code consumes
the row above a weight row as calories without ever inspecting its tag. -/
theorem C4_counterexample :
    c4Sheet 11 3 = CellVal.str "Banana" ∧
    scanRows c4Sheet "t" = [(294, ⟨none, some 2000, "Imported from Excel", "t"⟩)] := by
  decide

/-- C4 (amended): the scanner compares a row's type-tag cell against the
single label `'Weight'` only: a row whose tag is anything else (or blank)
is never keyed on itself, and the values of the row immediately above a
weight row are consumed as calories regardless of that row's tag (changing
the previous row's tag cell cannot change the result). -/
theorem C4_amended (sheet : ℕ → ℕ → CellVal) (now : String) (m : Dict) (row : ℕ)
    (t : CellVal) (hrow : 1 ≤ row) :
    (sheet row 3 ≠ CellVal.str "Weight" → processRow sheet now m row = m) ∧
    processRow (updateCell sheet (row - 1) 3 t) now m row = processRow sheet now m row := by
  constructor
  · intro ht
    unfold processRow
    split
    · rw [if_neg ht]
    · rfl
  · have hne : ¬ row = row - 1 := by omega
    have h2 : updateCell sheet (row - 1) 3 t row 2 = sheet row 2 := by
      simp [updateCell, hne]
    have h3 : updateCell sheet (row - 1) 3 t row 3 = sheet row 3 := by
      simp [updateCell, hne]
    have h4 : (fun i => updateCell sheet (row - 1) 3 t row (4 + i)) =
        (fun i => sheet row (4 + i)) := by
      funext i; simp [updateCell, hne]
    have h5 : (fun i => updateCell sheet (row - 1) 3 t (row - 1) (4 + i)) =
        (fun i => sheet (row - 1) (4 + i)) := by
      funext i
      have hc : ¬ (4 + i = 3) := by omega
      simp [updateCell, hc]
    unfold processRow
    rw [h2, h3, h4, h5]

/-- Witness for C4 (amended): the `"Banana"`-tagged row 11 is not keyed on
itself, and retagging row 11 does not change what row 12 produces. -/
theorem C4_amended_witness :
    processRow c4Sheet "t" [] 11 = [] ∧
    processRow (updateCell c4Sheet 11 3 (CellVal.str "Fat")) "t" [] 12 =
      processRow c4Sheet "t" [] 12 :=
  ⟨(C4_amended c4Sheet "t" [] 11 (CellVal.str "Fat") (by decide)).1 (by decide),
   (C4_amended c4Sheet "t" [] 12 (CellVal.str "Fat") (by decide)).2⟩

/-- C5 counterexample: the claim "a row whose date cell is absent is still
processed using the anchor established by an earlier row" is false.  On
`c5Sheet`, row 12 establishes anchor 200 (entry at date 194, weight 70);
row 13 carries the `'Weight'` tag and a weight value 80 but no date cell,
and processing it changes nothing — its value 80 appears nowhere in the
final mapping. -/
theorem C5_counterexample :
    c5Sheet 13 2 = CellVal.empty ∧
    c5Sheet 13 3 = CellVal.str "Weight" ∧
    c5Sheet 13 4 = CellVal.num 80 ∧
    processRow c5Sheet "t" (processRow c5Sheet "t" [] 12) 13 =
      processRow c5Sheet "t" [] 12 ∧
    scanRows c5Sheet "t" = [(194, ⟨some 70, none, "Imported from Excel", "t"⟩)] := by
  decide

/-- C5 (amended): there is no anchor carry-forward: a scanned row is
processed only when its own date cell holds a calendar date (and its tag is
`'Weight'`); a row whose date cell is malformed or absent is skipped
entirely and contributes nothing, regardless of earlier rows. -/
theorem C5_amended (sheet : ℕ → ℕ → CellVal) (now : String) (m : Dict) (row : ℕ)
    (h : ∀ d, sheet row 2 ≠ CellVal.date d) :
    processRow sheet now m row = m := by
  unfold processRow
  split
  case _ d hd => exact absurd hd (h d)
  case _ => rfl

/-- Witness for C5 (amended): the dateless row 13 of `c5Sheet` is a no-op. -/
theorem C5_amended_witness : processRow c5Sheet "t" [] 13 = [] :=
  C5_amended c5Sheet "t" [] 13 (fun d hd => CellVal.noConfusion hd)

/-- C8: Snapshot shape: every run that produces output yields a snapshot
with `version = 1`, settings fixed to weight unit `"kg"` and calorie unit
`"cal"`, and an entries mapping whose keys are unique and sorted in strictly
ascending date order. -/
theorem C8_snapshot_shape (fs : String → Bool) (sheet : ℕ → ℕ → CellVal) (now : String)
    (snap : Snapshot) (h : (extract_run fs sheet now).output = some snap) :
    snap.version = 1 ∧ snap.settings = ⟨"kg", "cal"⟩ ∧
    List.Pairwise (fun a b : ℤ × Entry => a.1 < b.1) snap.entries := by
  unfold extract_run at h
  split at h
  case _ => exact absurd h (by simp)
  case _ p hp =>
    simp only [Option.some.injEq] at h
    subst h
    refine ⟨rfl, rfl, ?_⟩
    have hsorted : List.Sorted keyLe (List.insertionSort keyLe (scanRows sheet now)) :=
      List.sorted_insertionSort keyLe _
    have hperm : (List.insertionSort keyLe (scanRows sheet now)).Perm (scanRows sheet now) :=
      List.perm_insertionSort keyLe _
    have hnodup : ((List.insertionSort keyLe (scanRows sheet now)).map Prod.fst).Nodup :=
      ((hperm.map Prod.fst).nodup_iff).mpr (scanRows_nodup_keys sheet now)
    have hne : List.Pairwise (fun a b : ℤ × Entry => a.1 ≠ b.1)
        (List.insertionSort keyLe (scanRows sheet now)) :=
      List.pairwise_map.mp hnodup
    exact (hsorted.and hne).imp (fun hab => lt_of_le_of_ne hab.1 hab.2)

/-- Witness for C8: the snapshot produced from the example sheet. -/
theorem C8_witness :
    exSnap.version = 1 ∧ exSnap.settings = ⟨"kg", "cal"⟩ ∧
    List.Pairwise (fun a b : ℤ × Entry => a.1 < b.1) exSnap.entries :=
  C8_snapshot_shape (fun _ => true) exSheet "t" exSnap (by decide)

/-- C9: Input-not-found atomicity: when no candidate input path exists, the
run writes no output and prints a diagnostic naming all attempted paths;
when an input file is found but the scan yields zero entries, the output is
still written, with an empty entries mapping, alongside the empty-result
diagnostic. -/
theorem C9_io_atomicity (fs : String → Bool) (sheet : ℕ → ℕ → CellVal) (now : String) :
    ((∀ p ∈ possible_paths, fs p = false) →
      (extract_run fs sheet now).output = none ∧
      OutLine.tried possible_paths ∈ (extract_run fs sheet now).printed) ∧
    (∀ p, possible_paths.find? fs = some p → scanRows sheet now = [] →
      (extract_run fs sheet now).output = some ⟨1, now, ⟨"kg", "cal"⟩, []⟩ ∧
      OutLine.noEntries ∈ (extract_run fs sheet now).printed) := by
  constructor
  · intro hall
    have hf : possible_paths.find? fs = none :=
      List.find?_eq_none.mpr (fun p hp => by rw [hall p hp]; exact Bool.false_ne_true)
    unfold extract_run
    rw [hf]
    exact ⟨rfl, by simp⟩
  · intro p hp hscan
    unfold extract_run
    rw [hp, hscan]
    exact ⟨rfl, by simp⟩

/-- Witness for C9: a file system with no candidate present, and one where
the first candidate exists but the sheet is empty. -/
theorem C9_witness :
    ((extract_run (fun _ => false) emptySheet "t").output = none ∧
      OutLine.tried possible_paths ∈ (extract_run (fun _ => false) emptySheet "t").printed) ∧
    ((extract_run (fun _ => true) emptySheet "t").output = some ⟨1, "t", ⟨"kg", "cal"⟩, []⟩ ∧
      OutLine.noEntries ∈ (extract_run (fun _ => true) emptySheet "t").printed) :=
  ⟨(C9_io_atomicity (fun _ => false) emptySheet "t").1 (fun p _ => rfl),
   (C9_io_atomicity (fun _ => true) emptySheet "t").2 "Improved_TDEE_Tracker.xlsx"
      (by decide) (by decide)⟩

end Tdee
